import Mathlib

/-!
Verification development for the AgriSmart chat front-end.

We shallowly embed the core logic of the repository:
* `src/services/geminiService.ts` — `extractDataFromResponse` (fenced JSON
  block extraction);
* `src/unnamed/part_004` — the outbound-call wrapper `sendMessageToGemini`
  (OpenAI-proxy service variant) and its offline fallback;
* `src/App.tsx` — the session store (`loadHistory`, `saveHistoryToStorage`,
  `updateCurrentSession`, `handleModeSelect`, `handleDeleteSession`,
  `handleSend`);
* `src/components/RightPanel.tsx` — the sensor file parser inside
  `handleFileUpload`.

Modelling conventions:
* JS numbers are modelled exactly as decimal fractions (`DecNum`,
  mantissa × 10^-exp in canonical form).  The claims only parse decimal
  literals and compare them — no rounding-sensitive arithmetic occurs, so
  exact decimals and IEEE doubles agree on every computation performed.
  `NaN` is modelled as `none : Option DecNum`.
* JS strings are Lean `String`s (every text in the claims is in the BMP,
  where JS UTF-16 code units and Unicode code points coincide).
* `Date` instants are milliseconds since the Unix epoch (`Nat`).
* Thrown exceptions / promise rejection are modelled with `Except`.
-/

namespace AgriSmart

/-! ### Exact decimal numbers (the values of JS numeric literals) -/

/-- An exact decimal `num / 10 ^ exp`.  All values are built through
`mkDec`, which keeps the representation canonical (`exp = 0` whenever the
mantissa is divisible by ten), so structural equality is value equality. -/
structure DecNum where
  num : Int
  exp : Nat
deriving DecidableEq, Repr

/-- Strip factors of ten from the mantissa into the exponent. -/
def stripTens : Int → Nat → DecNum
  | n, 0 => ⟨n, 0⟩
  | n, e + 1 => if n % 10 = 0 then stripTens (n / 10) e else ⟨n, e + 1⟩

/-- Canonical constructor for `DecNum`. -/
def mkDec (n : Int) (e : Nat) : DecNum := stripTens n e

/-- Build the decimal value of a parsed literal: integer digits, fraction
digits, decimal exponent, sign. -/
def decOfParts (intPart fracPart : Nat) (fracLen : Nat) (e : Int) (neg : Bool) : DecNum :=
  let base : Int := (intPart * 10 ^ fracLen + fracPart : Nat)
  let base := if neg then -base else base
  match e with
  | .ofNat k => mkDec (base * ((10 ^ k : Nat) : Int)) fracLen
  | .negSucc k => mkDec base (fracLen + (k + 1))

/-! ### JS string/char primitives -/

/-- Decimal digit character (`'0'` + d). -/
def dChar (n : Nat) : Char := Char.ofNat (48 + n)

/-- Numeric value of a digit character. -/
def dVal (c : Char) : Nat := c.toNat - 48

/-- Is `c` an ASCII decimal digit? -/
def isDig (c : Char) : Bool := 48 ≤ c.toNat && c.toNat ≤ 57

theorem dVal_dChar {n : Nat} (h : n < 10) : dVal (dChar n) = n := by
  interval_cases n <;> rfl

theorem isDig_dChar {n : Nat} (h : n < 10) : isDig (dChar n) = true := by
  interval_cases n <;> rfl

/-- JS whitespace for `trim` (the claims only involve ASCII whitespace). -/
def isWsChar (c : Char) : Bool := c = ' ' ∨ c = '\t' ∨ c = '\n' ∨ c = '\r'

/-- JS `String.prototype.trim`. -/
def jsTrim (s : String) : String :=
  String.mk (((s.toList.dropWhile isWsChar).reverse.dropWhile isWsChar).reverse)

/-- Digits of a char list prefix: returns the digit run and the rest. -/
def spanDigits (cs : List Char) : List Char × List Char :=
  match cs with
  | [] => ([], [])
  | c :: rest =>
    if isDig c then
      let (ds, r) := spanDigits rest
      (c :: ds, r)
    else ([], cs)

/-- Value of a digit run (most significant first). -/
def digitsToNat (ds : List Char) : Nat :=
  ds.foldl (fun acc c => acc * 10 + dVal c) 0

/-- Parse an optional exponent part `e`/`E` sign digits.  JS `parseFloat`
leaves a malformed exponent unconsumed, which we mirror. -/
def parseExponent (cs : List Char) : Int × List Char :=
  match cs with
  | c :: rest =>
    if c = 'e' ∨ c = 'E' then
      match rest with
      | '+' :: r2 =>
        match spanDigits r2 with
        | ([], _) => (0, cs)
        | (ds, r3) => ((digitsToNat ds : Int), r3)
      | '-' :: r2 =>
        match spanDigits r2 with
        | ([], _) => (0, cs)
        | (ds, r3) => (-(digitsToNat ds : Int), r3)
      | _ =>
        match spanDigits rest with
        | ([], _) => (0, cs)
        | (ds, r3) => ((digitsToNat ds : Int), r3)
    else (0, cs)
  | [] => (0, cs)

/-- Parse a signed decimal literal prefix (sign, integer digits, optional
fraction, optional exponent) as in JS `parseFloat` / `Number`.  Returns the
value and the unconsumed rest; `none` when no digits are found.  (Hex
literals and `Infinity` are outside the model; no claim involves them.) -/
def parseDecCore (cs : List Char) : Option (DecNum × List Char) :=
  let (neg, cs1) :=
    match cs with
    | '-' :: r => (true, r)
    | '+' :: r => (false, r)
    | _ => (false, cs)
  let (ids, cs2) := spanDigits cs1
  let (fds, cs3) :=
    match cs2 with
    | '.' :: r =>
      let (ds, r2) := spanDigits r
      (ds, r2)
    | _ => ([], cs2)
  if ids = [] ∧ fds = [] then none
  else
    let (e, cs4) := parseExponent cs3
    some (decOfParts (digitsToNat ids) (digitsToNat fds) fds.length e neg, cs4)

/-- JS `Number(string)`: trims, empty string is `0`, otherwise the whole
trimmed string must be a decimal literal; `none` models `NaN`. -/
def jsNumberOfString (s : String) : Option DecNum :=
  let t := jsTrim s
  if t = "" then some (mkDec 0 0)
  else
    match parseDecCore t.toList with
    | some (q, []) => some q
    | _ => none

/-- JS `parseFloat(string)`: skips leading whitespace, parses the longest
decimal prefix; `none` models `NaN`. -/
def jsParseFloat (s : String) : Option DecNum :=
  match parseDecCore (s.toList.dropWhile isWsChar) with
  | some (q, _) => some q
  | none => none

/-! ### JSON values and `JSON.parse` -/

/-- A parsed JSON document (JS object graph).  Object fields keep source
order; lookup takes the last binding, as JS object literals do. -/
inductive JValue where
  | null : JValue
  | bool (b : Bool) : JValue
  | num (q : DecNum) : JValue
  | str (s : String) : JValue
  | arr (elems : List JValue) : JValue
  | obj (fields : List (String × JValue)) : JValue

/-- JS property read `v[k]`: `none` models `undefined` (also for
non-object receivers; reading from `null` throws and is handled at the
call sites that can encounter it). -/
def jGet (v : JValue) (k : String) : Option JValue :=
  match v with
  | .obj fields => fields.foldl (fun acc kv => if kv.1 = k then some kv.2 else acc) none
  | _ => none

/-- JS array index read `v[i]` (also reads the `"i"` property of plain
objects, as `?.[0]` does). -/
def jIndex (v : JValue) (i : Nat) : Option JValue :=
  match v with
  | .arr xs => xs.get? i
  | .obj _ => jGet v (Nat.repr i)
  | _ => none

/-- JS truthiness of a JSON value. -/
def jsTruthy (v : JValue) : Bool :=
  match v with
  | .null => false
  | .bool b => b
  | .num q => q.num != 0
  | .str s => s != ""
  | .arr _ => true
  | .obj _ => true

/-- Decimal rendering of a canonical `DecNum`, as JS `String(n)` renders
the corresponding double. -/
def decToString (d : DecNum) : String :=
  let a := d.num.natAbs
  let sign := if d.num < 0 then "-" else ""
  if d.exp = 0 then sign ++ Nat.repr a
  else
    let p := 10 ^ d.exp
    let ip := a / p
    let fracDigits := (Nat.repr (p + a % p)).drop 1
    sign ++ Nat.repr ip ++ "." ++ fracDigits

mutual

/-- JS `String(v)` conversion (arrays stringify as the comma-join of
their elements, as `Array.prototype.toString` does). -/
def jsStringOf : JValue → String
  | .null => "null"
  | .bool b => cond b "true" "false"
  | .num q => decToString q
  | .str s => s
  | .obj _ => "[object Object]"
  | .arr xs => jsJoinVals xs

/-- Comma-join of stringified array elements. -/
def jsJoinVals : List JValue → String
  | [] => ""
  | [x] => jsStringOf x
  | x :: xs => jsStringOf x ++ "," ++ jsJoinVals xs

end

/-- JS `Number(v)` conversion of a JSON value (`none` = `NaN`). -/
def jsToNumber (v : JValue) : Option DecNum :=
  match v with
  | .null => some (mkDec 0 0)
  | .bool b => some (mkDec (cond b 1 0) 0)
  | .num q => some q
  | .str s => jsNumberOfString s
  | .arr _ => jsNumberOfString (jsStringOf v)
  | .obj _ => none

/-- Skip JSON insignificant whitespace. -/
def skipWs (cs : List Char) : List Char :=
  cs.dropWhile (fun c => c = ' ' ∨ c = '\t' ∨ c = '\n' ∨ c = '\r')

/-- Hex digit value for `\u` escapes. -/
def hexVal (c : Char) : Option Nat :=
  if isDig c then some (dVal c)
  else if 97 ≤ c.toNat ∧ c.toNat ≤ 102 then some (c.toNat - 87)
  else if 65 ≤ c.toNat ∧ c.toNat ≤ 70 then some (c.toNat - 55)
  else none

/-- Parse the body of a JSON string literal (after the opening quote). -/
def jpString (cs : List Char) : Option (String × List Char) :=
  match cs with
  | [] => none
  | '"' :: rest => some ("", rest)
  | '\\' :: e :: rest =>
    match e with
    | '"' => (jpString rest).map (fun p => (String.mk ('"' :: p.1.toList), p.2))
    | '\\' => (jpString rest).map (fun p => (String.mk ('\\' :: p.1.toList), p.2))
    | '/' => (jpString rest).map (fun p => (String.mk ('/' :: p.1.toList), p.2))
    | 'b' => (jpString rest).map (fun p => (String.mk ('\x08' :: p.1.toList), p.2))
    | 'f' => (jpString rest).map (fun p => (String.mk ('\x0c' :: p.1.toList), p.2))
    | 'n' => (jpString rest).map (fun p => (String.mk ('\n' :: p.1.toList), p.2))
    | 'r' => (jpString rest).map (fun p => (String.mk ('\r' :: p.1.toList), p.2))
    | 't' => (jpString rest).map (fun p => (String.mk ('\t' :: p.1.toList), p.2))
    | 'u' =>
      match rest with
      | a :: b :: c :: d :: r2 =>
        match hexVal a, hexVal b, hexVal c, hexVal d with
        | some ha, some hb, some hc, some hd =>
          let code := ((ha * 16 + hb) * 16 + hc) * 16 + hd
          (jpString r2).map (fun p => (String.mk (Char.ofNat code :: p.1.toList), p.2))
        | _, _, _, _ => none
      | _ => none
    | _ => none
  | c :: rest =>
    if c.toNat < 32 then none
    else (jpString rest).map (fun p => (String.mk (c :: p.1.toList), p.2))

/-- Parse a JSON number (strict grammar: no leading `+`, no leading zeros,
fraction and exponent need digits). -/
def jpNumber (cs : List Char) : Option (DecNum × List Char) :=
  let (neg, cs1) := match cs with | '-' :: r => (true, r) | _ => (false, cs)
  let intOk : List Char → Bool := fun ds =>
    match ds with
    | [] => false
    | [_] => true
    | c :: _ => c ≠ '0'
  let (ids, cs2) := spanDigits cs1
  if intOk ids then
    let (fds, cs3) :=
      match cs2 with
      | '.' :: r =>
        match spanDigits r with
        | ([], _) => ([], cs2)
        | (ds, r2) => (ds, r2)
      | _ => ([], cs2)
    let fracBad : Bool := match cs2 with | '.' :: _ => fds.isEmpty | _ => false
    if fracBad then none
    else
      let (e, cs4) := parseExponent cs3
      let expBad : Bool :=
        match cs3 with
        | c :: _ => (c = 'e' ∨ c = 'E') ∧ cs4 = cs3
        | [] => false
      if expBad then none
      else some (decOfParts (digitsToNat ids) (digitsToNat fds) fds.length e neg, cs4)
  else none

/-- Grammar mode of the JSON parser's single recursive worker. -/
inductive JPMode where
  | val : JPMode
  | elems : JPMode
  | members : JPMode

/-- Output of the JSON parser's worker, by mode. -/
inductive JPOut where
  | outV (v : JValue) : JPOut
  | outL (l : List JValue) : JPOut
  | outM (m : List (String × JValue)) : JPOut

/-- Recursive-descent `JSON.parse` worker, structurally fuelled: parses a
value, the tail of an array (elements up to `]`), or the tail of an object
(members up to the closing brace). -/
def jpRun : Nat → JPMode → List Char → Option (JPOut × List Char)
  | 0, _, _ => none
  | fuel + 1, .val, cs =>
    match skipWs cs with
    | 'n' :: 'u' :: 'l' :: 'l' :: r => some (.outV .null, r)
    | 't' :: 'r' :: 'u' :: 'e' :: r => some (.outV (.bool true), r)
    | 'f' :: 'a' :: 'l' :: 's' :: 'e' :: r => some (.outV (.bool false), r)
    | '"' :: r => (jpString r).map (fun p => (.outV (.str p.1), p.2))
    | '[' :: r =>
      (match skipWs r with
       | ']' :: r2 => some (.outV (.arr []), r2)
       | _ =>
         match jpRun fuel .elems r with
         | some (.outL l, r2) => some (.outV (.arr l), r2)
         | _ => none)
    | '\x7b' :: r =>
      (match skipWs r with
       | '\x7d' :: r2 => some (.outV (.obj []), r2)
       | _ =>
         match jpRun fuel .members r with
         | some (.outM m, r2) => some (.outV (.obj m), r2)
         | _ => none)
    | c :: r =>
      if c = '-' ∨ isDig c then (jpNumber (c :: r)).map (fun p => (.outV (.num p.1), p.2))
      else none
    | [] => none
  | fuel + 1, .elems, cs =>
    match jpRun fuel .val cs with
    | some (.outV v, r) =>
      (match skipWs r with
       | ',' :: r2 =>
         (match jpRun fuel .elems r2 with
          | some (.outL l, r3) => some (.outL (v :: l), r3)
          | _ => none)
       | ']' :: r2 => some (.outL [v], r2)
       | _ => none)
    | _ => none
  | fuel + 1, .members, cs =>
    match skipWs cs with
    | '"' :: r =>
      (match jpString r with
       | some (k, r2) =>
         (match skipWs r2 with
          | ':' :: r3 =>
            (match jpRun fuel .val r3 with
             | some (.outV v, r4) =>
               (match skipWs r4 with
                | ',' :: r5 =>
                  (match jpRun fuel .members r5 with
                   | some (.outM m, r6) => some (.outM ((k, v) :: m), r6)
                   | _ => none)
                | '\x7d' :: r5 => some (.outM [(k, v)], r5)
                | _ => none)
             | _ => none)
          | _ => none)
       | none => none)
    | _ => none

/-- `JSON.parse(s)`: `none` models a thrown `SyntaxError`. -/
def jsonParse (s : String) : Option JValue :=
  match jpRun (s.length + 1) .val s.toList with
  | some (.outV v, rest) => if skipWs rest = [] then some v else none
  | _ => none

/-! ### Response Extractor (`extractDataFromResponse`, geminiService.ts) -/

/-- First index at which `pat` occurs as a contiguous substring of `l`
(leftmost match, as regex scanning finds it). -/
def findSubstr (pat : List Char) : List Char → Option Nat
  | [] => if pat.isPrefixOf [] then some 0 else none
  | c :: rest =>
    if pat.isPrefixOf (c :: rest) then some 0
    else (findSubstr pat rest).map (· + 1)

/-- The opening fence of the extraction regex `/```json([\s\S]*?)```/`. -/
def fenceOpen : List Char := ['`', '`', '`', 'j', 's', 'o', 'n']

/-- The closing fence. -/
def fenceClose : List Char := ['`', '`', '`']

/-- First match of `/```json([\s\S]*?)```/` against `cs`: the text before
the match, the lazily-matched capture group, and the text after.  The
regex matches at the leftmost `[BT][BT][BT]json` (`[BT]` = backtick) that
is followed by a later `[BT][BT][BT]`, with the shortest possible capture.
(If the leftmost occurrence of the opening fence has no closing fence
after it, no later occurrence can have one either — two occurrences of
the opening fence cannot overlap, so any later occurrence starts with a
closing fence that would already have served the leftmost one.) -/
def firstJsonBlockL (cs : List Char) : Option (List Char × List Char × List Char) :=
  match findSubstr fenceOpen cs with
  | none => none
  | some i =>
    let rest := cs.drop (i + 7)
    match findSubstr fenceClose rest with
    | none => none
    | some j => some (cs.take i, rest.take j, rest.drop (j + 3))

/-- Result record of `extractDataFromResponse`.  The `machinery` and
`schedule` payloads are kept as raw JSON values: the source performs no
schema validation on them. -/
structure ExtractResult where
  machinery : Option JValue
  schedule : Option JValue
  cleanText : String

/-- Keep an optional value only when truthy. -/
def tfilter (o : Option JValue) : Option JValue :=
  match o with
  | some x => if jsTruthy x then some x else none
  | none => none

/-- Truthiness-guarded field read: `if (parsed.k) out = parsed.k`. -/
def truthyGet (v : JValue) (k : String) : Option JValue :=
  tfilter (jGet v k)

/-- `extractDataFromResponse` (geminiService.ts:82-108).  Finds the first
`/```json([\s\S]*?)```/` match; if the capture is non-empty, parses it as
JSON and reads the truthy `machinery` / `schedule` fields, and strips the
matched block from the text (then `trim`s).  A parse failure — including
the member access throwing when the document is JSON `null` — is caught:
the untouched input is returned with no fields. -/
def extractDataFromResponse (text : String) : ExtractResult :=
  match firstJsonBlockL text.toList with
  | none => ⟨none, none, text⟩
  | some (pre, inner, post) =>
    if inner.isEmpty then ⟨none, none, text⟩
    else
      match jsonParse (String.mk inner) with
      | none => ⟨none, none, text⟩
      | some .null => ⟨none, none, text⟩
      | some v => ⟨truthyGet v "machinery", truthyGet v "schedule", jsTrim (String.mk (pre ++ post))⟩

/-! ### Lemmas about substring search -/

theorem take_len_append (a b : List Char) : (a ++ b).take a.length = a :=
  List.take_left a b

theorem drop_len_append (a b : List Char) : (a ++ b).drop a.length = b :=
  List.drop_left a b

theorem isPrefixOf_append_self (pat rest : List Char) :
    pat.isPrefixOf (pat ++ rest) = true := by
  induction pat with
  | nil => simp [List.isPrefixOf]
  | cons c cs ih => simp [List.isPrefixOf, ih]

theorem findSubstr_of_prefix_free (pat pre rest : List Char) (c0 : Char) (pat' : List Char)
    (hpat : pat = c0 :: pat') (hpre : c0 ∉ pre) :
    findSubstr pat (pre ++ pat ++ rest) = some pre.length := by
  induction pre with
  | nil =>
    simp only [List.nil_append, List.length_nil]
    cases hl : pat ++ rest with
    | nil =>
      subst hpat
      simp at hl
    | cons x xs =>
      rw [← hl]
      subst hpat
      simp [findSubstr, ← hl, isPrefixOf_append_self]
  | cons a as ih =>
    have ha : c0 ≠ a := fun h => hpre (h ▸ List.mem_cons_self a as)
    have has : c0 ∉ as := fun h => hpre (List.mem_cons_of_mem a h)
    have hbeq : (c0 == a) = false := by
      simp [ha]
    have hnp : pat.isPrefixOf (a :: (as ++ pat ++ rest)) = false := by
      subst hpat
      simp [List.isPrefixOf, hbeq]
    simp only [List.cons_append, findSubstr, List.append_eq, hnp, Bool.false_eq_true, if_false]
    have := ih has
    simp only [List.append_eq] at this
    rw [this]
    simp

theorem findSubstr_sound (pat : List Char) :
    ∀ (l : List Char) (i : Nat), findSubstr pat l = some i →
      l = l.take i ++ pat ++ l.drop (i + pat.length) := by
  intro l
  induction l with
  | nil =>
    intro i h
    simp only [findSubstr] at h
    by_cases hp : pat.isPrefixOf [] = true
    · have : pat = [] := by
        cases pat with
        | nil => rfl
        | cons c cs => simp [List.isPrefixOf] at hp
      simp [this]
    · simp [hp] at h
  | cons c rest ih =>
    intro i h
    simp only [findSubstr] at h
    by_cases hp : pat.isPrefixOf (c :: rest) = true
    · simp only [hp, if_true, Option.some.injEq] at h
      subst h
      have hpfx : pat <+: c :: rest := by
        rwa [← List.isPrefixOf_iff_prefix]
      obtain ⟨t, ht⟩ := hpfx
      rw [← ht]
      simp [drop_len_append]
    · simp only [hp, Bool.false_eq_true, if_false] at h
      cases hrec : findSubstr pat rest with
      | none => simp [hrec] at h
      | some i' =>
        simp only [hrec, Option.map_some', Option.some.injEq] at h
        subst h
        have hrest := ih i' hrec
        have harith : i' + 1 + pat.length = (i' + pat.length) + 1 := by omega
        rw [harith]
        simp only [List.take_succ_cons, List.drop_succ_cons]
        rw [List.cons_append, List.cons_append]
        rw [← hrest]

theorem toList_append (a b : String) : (a ++ b).toList = a.toList ++ b.toList := rfl

theorem mk_toList (s : String) : String.mk s.toList = s := rfl

theorem mk_append (a b : List Char) : String.mk (a ++ b) = String.mk a ++ String.mk b := rfl

/-- Computation of the first-block matcher on an explicitly decomposed
input: backtick-free prefix, then the opening fence, a backtick-free
capture, the closing fence, and an arbitrary tail. -/
theorem firstJsonBlockL_decompose (pre inner post : List Char)
    (hpre : '`' ∉ pre) (hinner : '`' ∉ inner) :
    firstJsonBlockL (pre ++ fenceOpen ++ inner ++ fenceClose ++ post) =
      some (pre, inner, post) := by
  have hassoc : pre ++ fenceOpen ++ inner ++ fenceClose ++ post =
      pre ++ fenceOpen ++ ((inner ++ fenceClose) ++ post) := by
    simp [List.append_assoc]
  have h1 : findSubstr fenceOpen (pre ++ fenceOpen ++ ((inner ++ fenceClose) ++ post)) =
      some pre.length :=
    findSubstr_of_prefix_free fenceOpen pre ((inner ++ fenceClose) ++ post) '`'
      ['`', '`', 'j', 's', 'o', 'n'] rfl hpre
  have hlen7 : pre.length + 7 = (pre ++ fenceOpen).length := by
    simp [List.length_append]
    rfl
  have hdrop : (pre ++ fenceOpen ++ ((inner ++ fenceClose) ++ post)).drop (pre.length + 7) =
      (inner ++ fenceClose) ++ post := by
    rw [hlen7]
    exact drop_len_append (pre ++ fenceOpen) ((inner ++ fenceClose) ++ post)
  have h2 : findSubstr fenceClose ((inner ++ fenceClose) ++ post) = some inner.length := by
    have := findSubstr_of_prefix_free fenceClose inner post '`' ['`', '`'] rfl hinner
    simpa using this
  have htake : (pre ++ fenceOpen ++ ((inner ++ fenceClose) ++ post)).take pre.length = pre := by
    have : pre ++ fenceOpen ++ ((inner ++ fenceClose) ++ post) =
        pre ++ (fenceOpen ++ ((inner ++ fenceClose) ++ post)) := by
      simp [List.append_assoc]
    rw [this]
    exact take_len_append pre _
  have htakein : ((inner ++ fenceClose) ++ post).take inner.length = inner := by
    have : (inner ++ fenceClose) ++ post = inner ++ (fenceClose ++ post) := by
      simp [List.append_assoc]
    rw [this]
    exact take_len_append inner _
  have hdropin : ((inner ++ fenceClose) ++ post).drop (inner.length + 3) = post := by
    have hl : inner.length + 3 = (inner ++ fenceClose).length := by
      simp [List.length_append]
      rfl
    rw [hl]
    exact drop_len_append (inner ++ fenceClose) post
  rw [hassoc, firstJsonBlockL, h1]
  simp only [hdrop, h2, htake, htakein, hdropin]

/-- Any successful match decomposes the input around the two fences. -/
theorem firstJsonBlockL_sound (cs : List Char) (pre inner post : List Char)
    (h : firstJsonBlockL cs = some (pre, inner, post)) :
    cs = pre ++ fenceOpen ++ inner ++ fenceClose ++ post := by
  rw [firstJsonBlockL] at h
  cases h1 : findSubstr fenceOpen cs with
  | none => simp [h1] at h
  | some i =>
    simp only [h1] at h
    cases h2 : findSubstr fenceClose (cs.drop (i + 7)) with
    | none => simp [h2] at h
    | some j =>
      simp only [h2, Option.some.injEq, Prod.mk.injEq] at h
      obtain ⟨hpre, hinner, hpost⟩ := h
      have hs1 := findSubstr_sound fenceOpen cs i h1
      have hs2 := findSubstr_sound fenceClose (cs.drop (i + 7)) j h2
      have hlen1 : fenceOpen.length = 7 := rfl
      have hlen2 : fenceClose.length = 3 := rfl
      rw [hlen1] at hs1
      rw [hlen2] at hs2
      subst hpre hinner hpost
      calc cs = cs.take i ++ fenceOpen ++ cs.drop (i + 7) := hs1
        _ = cs.take i ++ fenceOpen ++ ((cs.drop (i + 7)).take j ++ fenceClose ++
              (cs.drop (i + 7)).drop (j + 3)) := by rw [← hs2]
        _ = cs.take i ++ fenceOpen ++ (cs.drop (i + 7)).take j ++ fenceClose ++
              (cs.drop (i + 7)).drop (j + 3) := by simp [List.append_assoc]

/-! ### Claims C1–C3: the Response Extractor -/

/-- **C1.**  For every reply containing exactly one well-formed
JSON-tagged fenced block — a backtick-free prefix `pre`, the block
` ```json<inner>``` ` with backtick-free capture `inner` parsing to a
JSON document `v` (well-formed per the announced schema: not the bare
document `null`, and its `machinery`/`schedule` fields, when present,
truthy, i.e. genuine object/array payloads) — `extractDataFromResponse`
returns `cleanText` equal to the input with exactly that block (fence
markers included) removed and the surroundings trimmed, and returns the
`machinery` and `schedule` fields verbatim as they appear in the parsed
document.  `post` may contain further blocks: only the first is consulted
and removed. -/
theorem C1_extract_single_block (pre inner post : String) (v : JValue)
    (hpre : '`' ∉ pre.toList) (hinner : '`' ∉ inner.toList)
    (hparse : jsonParse inner = some v) (hnn : v ≠ JValue.null)
    (hm : ∀ x, jGet v "machinery" = some x → jsTruthy x = true)
    (hs : ∀ x, jGet v "schedule" = some x → jsTruthy x = true) :
    extractDataFromResponse (pre ++ "```json" ++ inner ++ "```" ++ post) =
      ⟨jGet v "machinery", jGet v "schedule", jsTrim (pre ++ post)⟩ := by
  have hne : inner ≠ "" := by
    intro h
    rw [h, show jsonParse "" = none from rfl] at hparse
    exact Option.noConfusion hparse
  have hneL : inner.toList ≠ [] := by
    intro h
    apply hne
    have := congrArg String.mk h
    rwa [mk_toList] at this
  have hlist : (pre ++ "```json" ++ inner ++ "```" ++ post).toList =
      pre.toList ++ fenceOpen ++ inner.toList ++ fenceClose ++ post.toList := by
    simp [toList_append]
    rfl
  rw [extractDataFromResponse, hlist,
    firstJsonBlockL_decompose pre.toList inner.toList post.toList hpre hinner]
  have hemp : inner.toList.isEmpty = false := by
    cases h : inner.toList with
    | nil => exact absurd h hneL
    | cons a l => rfl
  simp only [hemp, Bool.false_eq_true, if_false]
  rw [mk_toList, hparse]
  have hclean : jsTrim (String.mk (pre.toList ++ post.toList)) = jsTrim (pre ++ post) := by
    rw [mk_append, mk_toList, mk_toList]
  have hmach : truthyGet v "machinery" = jGet v "machinery" := by
    unfold truthyGet
    cases h : jGet v "machinery" with
    | none => rfl
    | some x => simp [tfilter, hm x h]
  have hsched : truthyGet v "schedule" = jGet v "schedule" := by
    unfold truthyGet
    cases h : jGet v "schedule" with
    | none => rfl
    | some x => simp [tfilter, hs x h]
  cases v with
  | null => exact absurd rfl hnn
  | bool b =>
    simp [hmach, hsched]
    rfl
  | num q =>
    simp [hmach, hsched]
    rfl
  | str s =>
    simp [hmach, hsched]
    rfl
  | arr xs =>
    simp [hmach, hsched]
    rfl
  | obj fs =>
    simp [hmach, hsched]
    rfl

/-- Witness for C1: the spec's scenario in miniature. -/
theorem C1_extract_single_block_witness :
    extractDataFromResponse "Here is the plan.\n```json\n\x7b\"schedule\":[1]\x7d\n```" =
      ⟨none, some (.arr [.num ⟨1, 0⟩]), "Here is the plan."⟩ := by
  have h := C1_extract_single_block "Here is the plan.\n" "\n\x7b\"schedule\":[1]\x7d\n" ""
    (JValue.obj [("schedule", JValue.arr [JValue.num ⟨1, 0⟩])])
    (by decide) (by decide) (by rfl)
    (fun hcon => JValue.noConfusion hcon)
    (by
      intro x hx
      rw [show jGet (JValue.obj [("schedule", JValue.arr [JValue.num ⟨1, 0⟩])]) "machinery" =
          none from rfl] at hx
      exact Option.noConfusion hx)
    (by
      intro x hx
      rw [show jGet (JValue.obj [("schedule", JValue.arr [JValue.num ⟨1, 0⟩])]) "schedule" =
          some (JValue.arr [JValue.num ⟨1, 0⟩]) from rfl] at hx
      cases Option.some.inj hx
      rfl)
  rw [show ("Here is the plan.\n```json\n\x7b\"schedule\":[1]\x7d\n```" : String) =
      "Here is the plan.\n" ++ "```json" ++ "\n\x7b\"schedule\":[1]\x7d\n" ++ "```" ++ ""
      from rfl]
  rw [h]
  rfl

/-- **C2.**  For every input containing no fenced block tagged `json`
(no decomposition `pre ++ "```json" ++ inner ++ "```" ++ post` exists),
`extractDataFromResponse` is the identity on the text and returns both
structured fields absent. -/
theorem C2_extract_no_block (text : String)
    (h : ∀ pre inner post : String, text ≠ pre ++ "```json" ++ inner ++ "```" ++ post) :
    extractDataFromResponse text = ⟨none, none, text⟩ := by
  cases hb : firstJsonBlockL text.toList with
  | none => rw [extractDataFromResponse, hb]
  | some triple =>
    obtain ⟨a, b, c⟩ := triple
    have hsd := firstJsonBlockL_sound text.toList a b c hb
    exfalso
    apply h (String.mk a) (String.mk b) (String.mk c)
    have : String.mk text.toList =
        String.mk (a ++ fenceOpen ++ b ++ fenceClose ++ c) := by rw [← hsd]
    rw [mk_toList] at this
    rw [this]
    rfl

/-- Witness for C2. -/
theorem C2_extract_no_block_witness :
    extractDataFromResponse "hello" = ⟨none, none, "hello"⟩ := by
  apply C2_extract_no_block
  intro pre inner post h
  have hlen := congrArg String.length h
  simp only [String.length_append] at hlen
  rw [show ("hello" : String).length = 5 from rfl,
    show ("```json" : String).length = 7 from rfl,
    show ("```" : String).length = 3 from rfl] at hlen
  omega

/-- **C3.**  For every input containing a JSON-tagged fenced block whose
capture does not parse as JSON, `extractDataFromResponse` catches the
parse error and returns the untouched input with both fields absent. -/
theorem C3_extract_parse_failure (pre inner post : String)
    (hpre : '`' ∉ pre.toList) (hinner : '`' ∉ inner.toList)
    (hfail : jsonParse inner = none) :
    extractDataFromResponse (pre ++ "```json" ++ inner ++ "```" ++ post) =
      ⟨none, none, pre ++ "```json" ++ inner ++ "```" ++ post⟩ := by
  have hlist : (pre ++ "```json" ++ inner ++ "```" ++ post).toList =
      pre.toList ++ fenceOpen ++ inner.toList ++ fenceClose ++ post.toList := by
    simp [toList_append]
    rfl
  rw [extractDataFromResponse, hlist,
    firstJsonBlockL_decompose pre.toList inner.toList post.toList hpre hinner]
  by_cases hemp : inner.toList.isEmpty = true
  · simp only [hemp, if_true]
  · have hemp' : inner.toList.isEmpty = false := by
      revert hemp
      cases inner.toList.isEmpty <;> simp
    simp only [hemp', Bool.false_eq_true, if_false]
    rw [mk_toList, hfail]

/-- Witness for C3: a malformed block leaves the reply untouched. -/
theorem C3_extract_parse_failure_witness :
    extractDataFromResponse "Oops\n```json\nnot json at all\n```!" =
      ⟨none, none, "Oops\n```json\nnot json at all\n```!"⟩ := by
  have h := C3_extract_parse_failure "Oops\n" "\nnot json at all\n" "!"
    (by decide) (by decide) (by rfl)
  rw [show ("Oops\n```json\nnot json at all\n```!" : String) =
      "Oops\n" ++ "```json" ++ "\nnot json at all\n" ++ "```" ++ "!" from rfl]
  rw [h]

/-! ### UTC calendar arithmetic: `Date.prototype.toISOString` and ISO parsing

`JSON.stringify` serialises a `Date` through `toJSON`, producing the UTC
ISO string `YYYY-MM-DDTHH:mm:ss.sssZ`; `new Date(string)` parses it back.
We model instants as milliseconds since the Unix epoch (`Nat`, so
non-negative instants in years 1970–9999, which covers every timestamp the
application can produce). -/

/-- Gregorian leap-year test. -/
def isLeap (y : Nat) : Bool := (y % 4 == 0 && y % 100 != 0) || y % 400 == 0

/-- Days in year `y`. -/
def yearLen (y : Nat) : Nat := if isLeap y then 366 else 365

/-- Month lengths of year `y`. -/
def monthLens (y : Nat) : List Nat :=
  [31, if isLeap y then 29 else 28, 31, 30, 31, 30, 31, 31, 30, 31, 30, 31]

/-- Step years forward from `y`, consuming `d` days; fuel-structural
(`fuel ≥ d` suffices since every year has at least one day). -/
def toYearAux : Nat → Nat → Nat → Nat × Nat
  | 0, y, d => (y, d)
  | fuel + 1, y, d => if d < yearLen y then (y, d) else toYearAux fuel (y + 1) (d - yearLen y)

/-- Step through month lengths, consuming `d` days. -/
def splitMonths : List Nat → Nat → Nat → Nat × Nat
  | [], m, d => (m, d)
  | len :: rest, m, d => if d < len then (m, d) else splitMonths rest (m + 1) (d - len)

/-- Civil date (year, month 1–12, zero-based day) of day number `d`
(days since 1970-01-01). -/
def civilOfDays (d : Nat) : Nat × Nat × Nat :=
  let yr := toYearAux d 1970 d
  let mr := splitMonths (monthLens yr.1) 1 yr.2
  (yr.1, mr.1, mr.2)

/-- Total days in the `n` years starting at year `y`. -/
def daysInYears : Nat → Nat → Nat
  | _, 0 => 0
  | y, n + 1 => yearLen y + daysInYears (y + 1) n

/-- Day number of the civil date (year `y`, month `m` 1-based, zero-based
day `d0`). -/
def daysOfCivil (y m d0 : Nat) : Nat :=
  daysInYears 1970 (y - 1970) + ((monthLens y).take (m - 1)).sum + d0

/-- Two right-aligned decimal digits. -/
def pad2 (n : Nat) : List Char := [dChar (n / 10 % 10), dChar (n % 10)]

/-- Three right-aligned decimal digits. -/
def pad3 (n : Nat) : List Char := [dChar (n / 100 % 10), dChar (n / 10 % 10), dChar (n % 10)]

/-- Four right-aligned decimal digits. -/
def pad4 (n : Nat) : List Char :=
  [dChar (n / 1000 % 10), dChar (n / 100 % 10), dChar (n / 10 % 10), dChar (n % 10)]

/-- `Date.prototype.toISOString` for an epoch-millisecond instant. -/
def toISOString (t : Nat) : String :=
  let days := t / 86400000
  let rem := t % 86400000
  let c := civilOfDays days
  String.mk (pad4 c.1 ++ '-' :: pad2 c.2.1 ++ '-' :: pad2 (c.2.2 + 1) ++
    'T' :: pad2 (rem / 3600000) ++ ':' :: pad2 (rem % 3600000 / 60000) ++
    ':' :: pad2 (rem % 60000 / 1000) ++ '.' :: pad3 (rem % 1000) ++ ['Z'])

/-- Parse a UTC ISO timestamp `YYYY-MM-DDTHH:mm:ss.sssZ` back to epoch
milliseconds, as `new Date(string)` does on the strings `toISOString`
produces (instants before 1970 are outside the `Nat` instant model). -/
def parseISOChars : List Char → Option Nat
  | [y1, y2, y3, y4, '-', m1, m2, '-', d1, d2, 'T', h1, h2, ':', n1, n2, ':',
     s1, s2, '.', f1, f2, f3, 'Z'] =>
    if isDig y1 && isDig y2 && isDig y3 && isDig y4 && isDig m1 && isDig m2 &&
       isDig d1 && isDig d2 && isDig h1 && isDig h2 && isDig n1 && isDig n2 &&
       isDig s1 && isDig s2 && isDig f1 && isDig f2 && isDig f3 then
      let y := ((dVal y1 * 10 + dVal y2) * 10 + dVal y3) * 10 + dVal y4
      let mo := dVal m1 * 10 + dVal m2
      let dd := dVal d1 * 10 + dVal d2
      let hh := dVal h1 * 10 + dVal h2
      let mi := dVal n1 * 10 + dVal n2
      let ss := dVal s1 * 10 + dVal s2
      let ms := (dVal f1 * 10 + dVal f2) * 10 + dVal f3
      if 1 ≤ mo ∧ mo ≤ 12 ∧ 1 ≤ dd ∧ dd ≤ 31 ∧ hh ≤ 23 ∧ mi ≤ 59 ∧ ss ≤ 59 ∧ 1970 ≤ y then
        some (daysOfCivil y mo (dd - 1) * 86400000 + hh * 3600000 + mi * 60000 +
          ss * 1000 + ms)
      else none
    else none
  | _ => none

/-- `new Date(isoString).getTime()` on ISO strings. -/
def parseISODate (s : String) : Option Nat := parseISOChars s.toList

/-! #### Round-trip lemmas for the calendar conversion -/

theorem yearLen_ge (y : Nat) : 365 ≤ yearLen y := by
  unfold yearLen
  split <;> omega

theorem daysInYears_add (y a b : Nat) :
    daysInYears y (a + b) = daysInYears y a + daysInYears (y + a) b := by
  induction a generalizing y with
  | zero => simp [daysInYears]
  | succ a ih =>
    have : a + 1 + b = (a + b) + 1 := by omega
    rw [this]
    simp only [daysInYears]
    rw [ih (y + 1)]
    have : y + 1 + a = y + (a + 1) := by omega
    rw [this]
    omega

theorem daysInYears_ge (y n : Nat) : 365 * n ≤ daysInYears y n := by
  induction n generalizing y with
  | zero => simp [daysInYears]
  | succ n ih =>
    simp only [daysInYears]
    have h1 := yearLen_ge y
    have h2 := ih (y + 1)
    omega

theorem toYearAux_spec : ∀ (fuel y d : Nat), d ≤ fuel →
    ∃ n r, toYearAux fuel y d = (y + n, r) ∧ daysInYears y n + r = d ∧
      r < yearLen (y + n) := by
  intro fuel
  induction fuel with
  | zero =>
    intro y d hd
    have : d = 0 := by omega
    subst this
    refine ⟨0, 0, rfl, by simp [daysInYears], ?_⟩
    have := yearLen_ge (y + 0)
    omega
  | succ fuel ih =>
    intro y d hd
    by_cases h : d < yearLen y
    · refine ⟨0, d, ?_, by simp [daysInYears], by simpa using h⟩
      simp [toYearAux, h]
    · have hge : yearLen y ≤ d := by omega
      have hy := yearLen_ge y
      have hd' : d - yearLen y ≤ fuel := by omega
      obtain ⟨n, r, heq, hsum, hr⟩ := ih (y + 1) (d - yearLen y) hd'
      refine ⟨n + 1, r, ?_, ?_, ?_⟩
      · rw [show toYearAux (fuel + 1) y d = toYearAux fuel (y + 1) (d - yearLen y) from by
          simp [toYearAux, h]]
        rw [heq]
        congr 1
        omega
      · simp only [daysInYears]
        omega
      · have : y + 1 + n = y + (n + 1) := by omega
        rwa [this] at hr

theorem splitMonths_spec : ∀ (ls : List Nat) (m d : Nat), d < ls.sum →
    ∃ k r, splitMonths ls m d = (m + k, r) ∧ k < ls.length ∧
      (ls.take k).sum + r = d ∧ r < ls.getD k 0 := by
  intro ls
  induction ls with
  | nil =>
    intro m d hd
    simp at hd
  | cons len rest ih =>
    intro m d hd
    by_cases h : d < len
    · exact ⟨0, d, by simp [splitMonths, h], by simp, by simp, by simpa using h⟩
    · have hsum : d - len < rest.sum := by
        simp only [List.sum_cons] at hd
        omega
      obtain ⟨k, r, heq, hk, hs, hr⟩ := ih (m + 1) (d - len) hsum
      refine ⟨k + 1, r, ?_, by simpa using hk, ?_, by simpa using hr⟩
      · rw [show splitMonths (len :: rest) m d = splitMonths rest (m + 1) (d - len) from by
          simp [splitMonths, h]]
        rw [heq]
        congr 1
        omega
      · simp only [List.take_succ_cons, List.sum_cons]
        omega

theorem monthLens_sum (y : Nat) : (monthLens y).sum = yearLen y := by
  unfold monthLens yearLen
  split <;> simp

theorem monthLens_getD_le (y k : Nat) : (monthLens y).getD k 0 ≤ 31 := by
  unfold monthLens
  match k with
  | 0 => simp
  | 1 =>
    simp only [List.getD]
    split <;> simp
  | 2 | 3 | 4 | 5 | 6 | 7 | 8 | 9 | 10 | 11 => simp [List.getD]
  | n + 12 => simp [List.getD]

theorem isDig_dChar_mod (a : Nat) : isDig (dChar (a % 10)) = true :=
  isDig_dChar (Nat.mod_lt _ (by norm_num))

theorem dVal_dChar_mod (a : Nat) : dVal (dChar (a % 10)) = a % 10 :=
  dVal_dChar (Nat.mod_lt _ (by norm_num))

/-- Evaluating the ISO parser on a formatted timestamp with in-range
components. -/
theorem parseISOChars_format (y mo dd hh mi ss ms : Nat)
    (hy : 1970 ≤ y) (hy2 : y < 10000) (hmo : 1 ≤ mo) (hmo2 : mo ≤ 12)
    (hdd : 1 ≤ dd) (hdd2 : dd ≤ 31) (hhh : hh ≤ 23) (hmi : mi ≤ 59)
    (hss : ss ≤ 59) (hms : ms ≤ 999) :
    parseISOChars (pad4 y ++ '-' :: pad2 mo ++ '-' :: pad2 dd ++
      'T' :: pad2 hh ++ ':' :: pad2 mi ++ ':' :: pad2 ss ++ '.' :: pad3 ms ++ ['Z']) =
      some (daysOfCivil y mo (dd - 1) * 86400000 + hh * 3600000 + mi * 60000 +
        ss * 1000 + ms) := by
  simp only [pad4, pad2, pad3, List.cons_append, List.nil_append]
  rw [parseISOChars]
  simp only [isDig_dChar_mod, dVal_dChar_mod, Bool.and_self, if_true]
  have hyv : ((y / 1000 % 10 * 10 + y / 100 % 10) * 10 + y / 10 % 10) * 10 + y % 10 = y := by
    omega
  have hmov : mo / 10 % 10 * 10 + mo % 10 = mo := by omega
  have hddv : dd / 10 % 10 * 10 + dd % 10 = dd := by omega
  have hhhv : hh / 10 % 10 * 10 + hh % 10 = hh := by omega
  have hmiv : mi / 10 % 10 * 10 + mi % 10 = mi := by omega
  have hssv : ss / 10 % 10 * 10 + ss % 10 = ss := by omega
  have hmsv : (ms / 100 % 10 * 10 + ms / 10 % 10) * 10 + ms % 10 = ms := by omega
  rw [hyv, hmov, hddv, hhhv, hmiv, hssv, hmsv]
  rw [if_pos]
  exact ⟨hmo, hmo2, hdd, hdd2, hhh, hmi, hss, hy⟩

/-- The serialisation bound: instants below this value (years up to
roughly 9994) format with a four-digit year.  `2930950 = 365 * 8030`. -/
def TS_BOUND : Nat := 2930950 * 86400000

/-- Round trip of instants through `toISOString` and ISO parsing. -/
theorem parseISO_toISO (t : Nat) (ht : t < TS_BOUND) :
    parseISODate (toISOString t) = some t := by
  have hdays_lt : t / 86400000 < 2930950 := by
    unfold TS_BOUND at ht
    omega
  obtain ⟨n, r, heq, hsum, hr⟩ := toYearAux_spec (t / 86400000) 1970 (t / 86400000)
    (Nat.le_refl _)
  have hdy : daysInYears 1970 n ≤ t / 86400000 := by omega
  have hn : n < 8030 := by
    by_contra hcon
    push_neg at hcon
    have h1 : daysInYears 1970 8030 ≤ daysInYears 1970 n := by
      have : n = 8030 + (n - 8030) := by omega
      rw [this, daysInYears_add]
      omega
    have h2 := daysInYears_ge 1970 8030
    omega
  have hsumr : r < (monthLens (1970 + n)).sum := by
    rw [monthLens_sum]
    exact hr
  obtain ⟨k, r2, heq2, hk, hsum2, hr2⟩ := splitMonths_spec (monthLens (1970 + n)) 1 r hsumr
  have hk12 : k < 12 := by simpa [monthLens] using hk
  have hr2le : r2 + 1 ≤ 31 := by
    have := monthLens_getD_le (1970 + n) k
    omega
  have hciv : civilOfDays (t / 86400000) = (1970 + n, 1 + k, r2) := by
    unfold civilOfDays
    rw [heq]
    simp only
    rw [heq2]
  unfold parseISODate toISOString
  rw [show (String.mk (pad4 (civilOfDays (t / 86400000)).1 ++
      '-' :: pad2 (civilOfDays (t / 86400000)).2.1 ++
      '-' :: pad2 ((civilOfDays (t / 86400000)).2.2 + 1) ++
      'T' :: pad2 (t % 86400000 / 3600000) ++
      ':' :: pad2 (t % 86400000 % 3600000 / 60000) ++
      ':' :: pad2 (t % 86400000 % 60000 / 1000) ++
      '.' :: pad3 (t % 86400000 % 1000) ++ ['Z'])).toList =
      pad4 (civilOfDays (t / 86400000)).1 ++
      '-' :: pad2 (civilOfDays (t / 86400000)).2.1 ++
      '-' :: pad2 ((civilOfDays (t / 86400000)).2.2 + 1) ++
      'T' :: pad2 (t % 86400000 / 3600000) ++
      ':' :: pad2 (t % 86400000 % 3600000 / 60000) ++
      ':' :: pad2 (t % 86400000 % 60000 / 1000) ++
      '.' :: pad3 (t % 86400000 % 1000) ++ ['Z'] from rfl]
  rw [hciv]
  simp only
  rw [parseISOChars_format (1970 + n) (1 + k) (r2 + 1)
    (t % 86400000 / 3600000) (t % 86400000 % 3600000 / 60000)
    (t % 86400000 % 60000 / 1000) (t % 86400000 % 1000)
    (by omega) (by omega) (by omega) (by omega) (by omega) (by omega)
    (by omega) (by omega) (by omega) (by omega)]
  congr 1
  have hdoc : daysOfCivil (1970 + n) (1 + k) (r2 + 1 - 1) = t / 86400000 := by
    unfold daysOfCivil
    have h1 : 1970 + n - 1970 = n := by omega
    have h2 : 1 + k - 1 = k := by omega
    rw [h1, h2]
    omega
  rw [hdoc]
  omega

/-! ### Session store (`src/App.tsx`) -/

/-- Message author (`MessageRole` in types.ts). -/
inductive MessageRole where
  | user : MessageRole
  | model : MessageRole
deriving DecidableEq, Repr

/-- Assistant mode (`ChatMode` in types.ts). -/
inductive ChatMode where
  | operations : ChatMode
  | scheduling : ChatMode
  | diagnosis : ChatMode
deriving DecidableEq, Repr

/-- `ChatMessage` (timestamp in epoch milliseconds). -/
structure ChatMessage where
  role : MessageRole
  text : String
  timestamp : Nat
deriving DecidableEq, Repr

/-- `ChatSession`. -/
structure ChatSession where
  id : String
  title : String
  mode : ChatMode
  messages : List ChatMessage
  lastModified : Nat
deriving DecidableEq, Repr

/-- Stable insertion for the descending sort (a later element is placed
after earlier elements with the same key, matching the ES2019 stable
`Array.prototype.sort` with comparator `(a, b) => b.lastModified -
a.lastModified`). -/
def insertDesc (x : ChatSession) : List ChatSession → List ChatSession
  | [] => [x]
  | y :: ys => if y.lastModified ≤ x.lastModified then x :: y :: ys else y :: insertDesc x ys

/-- `sessions.sort((a, b) => b.lastModified - a.lastModified)`. -/
def jsSortDesc : List ChatSession → List ChatSession
  | [] => []
  | x :: xs => insertDesc x (jsSortDesc xs)

/-- Sorted by `lastModified` descending. -/
def sortedDesc (l : List ChatSession) : Prop :=
  l.Pairwise (fun a b => b.lastModified ≤ a.lastModified)

/-- JS `.slice(0, n)` on a BMP string. -/
def takeChars (s : String) (n : Nat) : String := String.mk (s.toList.take n)

/-- The title recomputation inside `updateCurrentSession` (App.tsx:83-85):
when the title is still the placeholder and the transcript has more than
one message, the first user message's first 15 characters — falling back
to the placeholder when absent or empty — get the ellipsis marker
appended (unconditionally). -/
def retitle (oldTitle : String) (ms : List ChatMessage) : String :=
  if oldTitle = "新任务" ∧ 1 < ms.length then
    (match ms.find? (fun m => m.role == MessageRole.user) with
     | some m =>
       let base := takeChars m.text 15
       if base = "" then "新任务" else base
     | none => "新任务") ++ "..."
  else oldTitle

/-- `findIndex` + in-place update of the first session whose id matches
(App.tsx:77-87); the list is unchanged when no session matches. -/
def updateFirstSession (cid : String) (now : Nat) (newMessages : List ChatMessage) :
    List ChatSession → List ChatSession
  | [] => []
  | s :: rest =>
    if s.id = cid then
      ⟨s.id, retitle s.title newMessages, s.mode, newMessages, now⟩ :: rest
    else s :: updateFirstSession cid now newMessages rest

/-- Result of `updateCurrentSession`: the session list that is both set
in memory and passed to `saveHistoryToStorage`, plus the (possibly newly
allocated) current session id. -/
structure UpdateResult where
  sessions : List ChatSession
  currentId : Option String
deriving DecidableEq, Repr

/-- `updateCurrentSession` (App.tsx:70-105).  Guarded on a non-empty
username; a truthy `currentSessionId` updates the first matching session
in place (no-op when none matches), a falsy one synthesises a brand-new
session at the head; either way the list is re-sorted and persisted. -/
def updateCurrentSession (username : String) (activeMode : Option ChatMode)
    (sessions : List ChatSession) (currentSessionId : Option String)
    (now : Nat) (newMessages : List ChatMessage) : UpdateResult :=
  if username = "" then ⟨sessions, currentSessionId⟩
  else
    let synthesize : UpdateResult :=
      let newId := Nat.repr now
      ⟨jsSortDesc (⟨newId, "新任务", activeMode.getD ChatMode.operations, newMessages, now⟩ ::
        sessions), some newId⟩
    match currentSessionId with
    | some cid =>
      if cid = "" then synthesize
      else ⟨jsSortDesc (updateFirstSession cid now newMessages sessions), some cid⟩
    | none => synthesize

/-- Mode-specific welcome template (App.tsx:145-151). -/
def welcomeText : ChatMode → String
  | .operations => "### 🚜 农机运营选型助手\n\n我是您的选型专家。请告诉我您的需求，我将为您推荐最匹配的农机设备。\n\n**建议输入格式：**\n> “我在**黑龙江**，主要种植**玉米**，作业面积约**5000亩**。想购买一台适合深翻作业的拖拉机，预算在**150-200万**之间。”"
  | .scheduling => "### 🗓️ 智能作业调度中心\n\n请输入您的作业任务和资源情况，我将为您生成最优排期计划和甘特图。\n\n**建议输入格式：**\n> “我有**3个地块**共1200亩小麦需要收割。目前有**2台收割机**（每台效率80亩/天）。要求**5天内**完工，请帮我安排作业计划。”"
  | .diagnosis => "### 🩺 农机故障智能诊断\n\n请描述农机的异常现象，或者在右侧上传传感器数据文件，我将为您分析故障原因。\n\n**建议输入格式：**\n> “**约翰迪尔8R**拖拉机，在重负荷耕作时**发动机声音异常**，且伴有**高频振动**，请分析可能原因和维修建议。”"

/-- `handleModeSelect` (App.tsx:138-176): creates the session with its
welcome message at the head of the list (the same list is set in memory
and persisted). -/
def handleModeSelect (mode : ChatMode) (sessions : List ChatSession) (now : Nat) :
    List ChatSession :=
  ⟨Nat.repr now, "新任务", mode, [⟨MessageRole.model, welcomeText mode, now⟩], now⟩ :: sessions

/-- `handleDeleteSession` (App.tsx:189-200): filters the session out
(the same list is set in memory and persisted). -/
def handleDeleteSession (sessionId : String) (sessions : List ChatSession) :
    List ChatSession :=
  sessions.filter (fun s => s.id ≠ sessionId)

/-- A `ChatMessage` as it sits in the persisted JSON: the timestamp has
been serialised by `Date.prototype.toJSON` into its ISO string. -/
structure StoredMessage where
  role : MessageRole
  text : String
  timestamp : String
deriving DecidableEq, Repr

/-- A `ChatSession` as it sits in the persisted JSON. -/
structure StoredSession where
  id : String
  title : String
  mode : ChatMode
  messages : List StoredMessage
  lastModified : Nat
deriving DecidableEq, Repr

/-- `JSON.stringify` of one message (`Date` serialises via `toJSON`). -/
def encodeMessage (m : ChatMessage) : StoredMessage :=
  ⟨m.role, m.text, toISOString m.timestamp⟩

/-- `JSON.stringify` of one session. -/
def encodeSession (s : ChatSession) : StoredSession :=
  ⟨s.id, s.title, s.mode, s.messages.map encodeMessage, s.lastModified⟩

/-- `saveHistoryToStorage` (App.tsx:65-68): serialises the full list to
the user's key. -/
def saveHistoryToStorage (sessions : List ChatSession) : List StoredSession :=
  sessions.map encodeSession

/-- Rehydration of one message: `new Date(m.timestamp)` (an unparsable
string would give an invalid date, modelled as instant 0; it never arises
for strings produced by `toISOString`). -/
def hydrateMessage (m : StoredMessage) : ChatMessage :=
  ⟨m.role, m.text, (parseISODate m.timestamp).getD 0⟩

/-- Rehydration of one session (App.tsx:51-54). -/
def hydrateSession (s : StoredSession) : ChatSession :=
  ⟨s.id, s.title, s.mode, s.messages.map hydrateMessage, s.lastModified⟩

/-- `loadHistory` (App.tsx:45-63): `none` covers both an absent key and a
`JSON.parse` failure (either way the list becomes empty); otherwise the
parsed sessions are rehydrated and sorted by `lastModified` descending. -/
def loadHistory (stored : Option (List StoredSession)) : List ChatSession :=
  match stored with
  | none => []
  | some parsed => jsSortDesc (parsed.map hydrateSession)

/-! #### Sorting lemmas -/

theorem insertDesc_perm (x : ChatSession) (l : List ChatSession) :
    List.Perm (insertDesc x l) (x :: l) := by
  induction l with
  | nil => rfl
  | cons y ys ih =>
    unfold insertDesc
    split
    · rfl
    · exact ((ih.cons y).trans (List.Perm.swap x y ys))

theorem jsSortDesc_perm (l : List ChatSession) : List.Perm (jsSortDesc l) l := by
  induction l with
  | nil => rfl
  | cons x xs ih => exact (insertDesc_perm x (jsSortDesc xs)).trans (ih.cons x)

theorem insertDesc_sorted (x : ChatSession) (l : List ChatSession)
    (h : sortedDesc l) : sortedDesc (insertDesc x l) := by
  induction l with
  | nil => simp [insertDesc, sortedDesc]
  | cons y ys ih =>
    rw [sortedDesc, List.pairwise_cons] at h
    obtain ⟨hy, hys⟩ := h
    unfold insertDesc
    split
    · rename_i hle
      rw [sortedDesc, List.pairwise_cons]
      refine ⟨?_, ?_⟩
      · intro b hb
        rcases List.mem_cons.mp hb with hb | hb
        · subst hb
          exact hle
        · exact le_trans (hy b hb) hle
      · exact List.Pairwise.cons hy hys
    · rename_i hgt
      have hxy : x.lastModified ≤ y.lastModified := by omega
      rw [sortedDesc, List.pairwise_cons]
      refine ⟨?_, ih hys⟩
      intro b hb
      have := (insertDesc_perm x ys).mem_iff.mp hb
      rcases List.mem_cons.mp this with hb' | hb'
      · subst hb'
        exact hxy
      · exact hy b hb'

theorem jsSortDesc_sorted (l : List ChatSession) : sortedDesc (jsSortDesc l) := by
  induction l with
  | nil => simp [jsSortDesc, sortedDesc]
  | cons x xs ih => exact insertDesc_sorted x (jsSortDesc xs) ih

theorem jsSortDesc_eq_self (l : List ChatSession) (h : sortedDesc l) :
    jsSortDesc l = l := by
  induction l with
  | nil => rfl
  | cons x xs ih =>
    rw [sortedDesc, List.pairwise_cons] at h
    obtain ⟨hx, hxs⟩ := h
    rw [jsSortDesc, ih hxs]
    cases xs with
    | nil => rfl
    | cons y ys =>
      have : y.lastModified ≤ x.lastModified := hx y (List.mem_cons_self y ys)
      simp [insertDesc, this]

/-! #### Lemmas about `updateFirstSession` -/

theorem takeChars_ne_empty (s : String) (n : Nat) (hs : s ≠ "") (hn : 0 < n) :
    takeChars s n ≠ "" := by
  cases s with
  | mk data =>
    cases data with
    | nil => exact absurd rfl hs
    | cons c rest =>
      cases n with
      | zero => omega
      | succ n =>
        intro h
        rw [takeChars] at h
        have h2 := congrArg String.data h
        simp at h2

theorem updateFirst_mem (cid : String) (now : Nat) (msgs : List ChatMessage)
    (sessions : List ChatSession) (s : ChatSession)
    (hfind : sessions.find? (fun t => t.id == cid) = some s) :
    (⟨s.id, retitle s.title msgs, s.mode, msgs, now⟩ : ChatSession) ∈
      updateFirstSession cid now msgs sessions := by
  induction sessions with
  | nil => simp [List.find?] at hfind
  | cons t rest ih =>
    by_cases h : t.id = cid
    · have hb : (t.id == cid) = true := beq_iff_eq.mpr h
      rw [List.find?, hb] at hfind
      have hst : s = t := (Option.some.inj hfind).symm
      subst hst
      rw [updateFirstSession, if_pos h]
      exact List.mem_cons_self _ _
    · have hb : (t.id == cid) = false := beq_eq_false_iff_ne.mpr h
      rw [List.find?, hb] at hfind
      rw [updateFirstSession, if_neg h]
      exact List.mem_cons_of_mem t (ih hfind)

theorem updateFirst_nomatch (cid : String) (now : Nat) (msgs : List ChatMessage)
    (sessions : List ChatSession) (h : ∀ s ∈ sessions, s.id ≠ cid) :
    updateFirstSession cid now msgs sessions = sessions := by
  induction sessions with
  | nil => rfl
  | cons t rest ih =>
    rw [updateFirstSession, if_neg (h t (List.mem_cons_self t rest))]
    rw [ih (fun s hs => h s (List.mem_cons_of_mem t hs))]

/-! ### Claims C4–C7: the Session Store -/

/-- Counterexample to **C4** as stated: after a two-message transcript
whose first user message is the ten-character `"请推荐一台拖拉机给我"`,
the title is *not* the text unchanged — the code appends the ellipsis
marker unconditionally (App.tsx:84), yielding `"请推荐一台拖拉机给我..."`. -/
theorem C4_counterexample :
    (updateCurrentSession "张师傅" (some ChatMode.operations)
        [⟨"1", "新任务", ChatMode.operations, [⟨MessageRole.model, "w", 50⟩], 50⟩]
        (some "1") 100
        [⟨MessageRole.model, "w", 50⟩,
         ⟨MessageRole.user, "请推荐一台拖拉机给我", 60⟩]).sessions =
      [⟨"1", "请推荐一台拖拉机给我...", ChatMode.operations,
        [⟨MessageRole.model, "w", 50⟩,
         ⟨MessageRole.user, "请推荐一台拖拉机给我", 60⟩], 100⟩] ∧
    ("请推荐一台拖拉机给我..." : String) ≠ "请推荐一台拖拉机给我" := by
  constructor
  · rfl
  · decide

/-- **C4 (amended).**  When a session still carrying the default
placeholder title is updated with a transcript of more than one message,
the title is rewritten to the first user message's first 15 characters
*always followed by the ellipsis marker* — also when the text has at most
15 characters.  In particular a first user message of
`"请推荐一台拖拉机给我"` yields the title `"请推荐一台拖拉机给我..."`. -/
theorem C4_title_truncation (username : String) (activeMode : Option ChatMode)
    (sessions : List ChatSession) (cid : String) (now : Nat)
    (newMessages : List ChatMessage) (s : ChatSession) (m : ChatMessage)
    (hu : username ≠ "") (hcid : cid ≠ "")
    (hfind : sessions.find? (fun t => t.id == cid) = some s)
    (ht : s.title = "新任务") (hlen : 1 < newMessages.length)
    (hfu : newMessages.find? (fun x => x.role == MessageRole.user) = some m)
    (hm : m.text ≠ "") :
    (⟨s.id, takeChars m.text 15 ++ "...", s.mode, newMessages, now⟩ : ChatSession) ∈
      (updateCurrentSession username activeMode sessions (some cid) now
        newMessages).sessions := by
  have hretitle : retitle s.title newMessages = takeChars m.text 15 ++ "..." := by
    rw [retitle, if_pos ⟨ht, hlen⟩, hfu]
    simp only
    rw [if_neg (takeChars_ne_empty m.text 15 hm (by norm_num))]
  rw [updateCurrentSession, if_neg hu]
  simp only [if_neg hcid]
  apply (jsSortDesc_perm _).mem_iff.mpr
  have := updateFirst_mem cid now newMessages sessions s hfind
  rwa [hretitle] at this

/-- Witness for the amended C4. -/
theorem C4_title_truncation_witness :
    (⟨"1", takeChars "请推荐一台拖拉机给我" 15 ++ "...", ChatMode.operations,
      [⟨MessageRole.model, "w", 50⟩, ⟨MessageRole.user, "请推荐一台拖拉机给我", 60⟩],
      100⟩ : ChatSession) ∈
      (updateCurrentSession "张师傅" (some ChatMode.operations)
        [⟨"1", "新任务", ChatMode.operations, [⟨MessageRole.model, "w", 50⟩], 50⟩]
        (some "1") 100
        [⟨MessageRole.model, "w", 50⟩,
         ⟨MessageRole.user, "请推荐一台拖拉机给我", 60⟩]).sessions := by
  exact C4_title_truncation "张师傅" (some ChatMode.operations)
    [⟨"1", "新任务", ChatMode.operations, [⟨MessageRole.model, "w", 50⟩], 50⟩]
    "1" 100
    [⟨MessageRole.model, "w", 50⟩, ⟨MessageRole.user, "请推荐一台拖拉机给我", 60⟩]
    ⟨"1", "新任务", ChatMode.operations, [⟨MessageRole.model, "w", 50⟩], 50⟩
    ⟨MessageRole.user, "请推荐一台拖拉机给我", 60⟩
    (by decide) (by decide) (by decide) rfl (by decide) (by decide) (by decide)

/-- Counterexample to **C5** as stated: with an active session id (`"2"`)
matching no stored session, no new session is synthesised — the list is
returned unchanged and the supplied transcript appears nowhere, i.e. the
in-flight transcript *is* lost. -/
theorem C5_counterexample :
    (updateCurrentSession "u" none [⟨"1", "t", ChatMode.operations, [], 5⟩] (some "2") 100
        [⟨MessageRole.user, "hi", 99⟩]).sessions =
      [⟨"1", "t", ChatMode.operations, [], 5⟩] ∧
    ∀ s ∈ (updateCurrentSession "u" none [⟨"1", "t", ChatMode.operations, [], 5⟩]
        (some "2") 100 [⟨MessageRole.user, "hi", 99⟩]).sessions,
      s.messages ≠ [⟨MessageRole.user, "hi", 99⟩] := by
  constructor
  · rfl
  · decide

/-- **C5 (amended).**  A brand-new session holding the supplied transcript
is synthesised only when *no session id is active* (the id is null, or the
empty string); when a non-empty id matches no stored session the call
leaves every session unchanged (the list is merely re-sorted and
persisted), dropping the in-flight transcript. -/
theorem C5_synthesis_only_when_inactive :
    (∀ (username : String) (am : Option ChatMode) (sessions : List ChatSession)
        (cid : String) (now : Nat) (msgs : List ChatMessage),
        username ≠ "" → cid ≠ "" → (∀ s ∈ sessions, s.id ≠ cid) →
        (updateCurrentSession username am sessions (some cid) now msgs).sessions =
          jsSortDesc sessions) ∧
    (∀ (username : String) (am : Option ChatMode) (sessions : List ChatSession)
        (now : Nat) (msgs : List ChatMessage), username ≠ "" →
        (⟨Nat.repr now, "新任务", am.getD ChatMode.operations, msgs, now⟩ : ChatSession) ∈
          (updateCurrentSession username am sessions none now msgs).sessions) := by
  constructor
  · intro username am sessions cid now msgs hu hcid hno
    rw [updateCurrentSession, if_neg hu]
    simp only [if_neg hcid]
    rw [updateFirst_nomatch cid now msgs sessions hno]
  · intro username am sessions now msgs hu
    rw [updateCurrentSession, if_neg hu]
    exact (jsSortDesc_perm _).mem_iff.mpr (List.mem_cons_self _ _)

/-- Witness for the amended C5. -/
theorem C5_synthesis_only_when_inactive_witness :
    (updateCurrentSession "u" none [⟨"1", "t", ChatMode.operations, [], 5⟩] (some "2") 100
        [⟨MessageRole.user, "hi", 99⟩]).sessions =
      jsSortDesc [⟨"1", "t", ChatMode.operations, [], 5⟩] ∧
    (⟨Nat.repr 100, "新任务", ChatMode.operations, [⟨MessageRole.user, "hi", 99⟩],
        100⟩ : ChatSession) ∈
      (updateCurrentSession "u" none [⟨"1", "t", ChatMode.operations, [], 5⟩] none 100
        [⟨MessageRole.user, "hi", 99⟩]).sessions := by
  constructor
  · exact C5_synthesis_only_when_inactive.1 "u" none
      [⟨"1", "t", ChatMode.operations, [], 5⟩] "2" 100 [⟨MessageRole.user, "hi", 99⟩]
      (by decide) (by decide) (by decide)
  · exact C5_synthesis_only_when_inactive.2 "u" none
      [⟨"1", "t", ChatMode.operations, [], 5⟩] 100 [⟨MessageRole.user, "hi", 99⟩]
      (by decide)

/-- **C6.**  After every Session Store mutation the session list — the
single list value that is both set in memory and handed to
`saveHistoryToStorage` — is sorted by `lastModified` descending:
`loadHistory` always sorts; `updateCurrentSession` re-sorts on every
mutating path (and preserves sortedness on its guard path);
`handleModeSelect` prepends a session stamped `now`, which keeps a sorted
list sorted whenever `now` is current (at least every stored
`lastModified`); `handleDeleteSession` filters, which preserves
sortedness. -/
theorem C6_sorted_after_mutations :
    (∀ stored, sortedDesc (loadHistory stored)) ∧
    (∀ (username : String) (am : Option ChatMode) (sessions : List ChatSession)
        (cid : Option String) (now : Nat) (msgs : List ChatMessage),
        sortedDesc sessions →
        sortedDesc (updateCurrentSession username am sessions cid now msgs).sessions) ∧
    (∀ (mode : ChatMode) (sessions : List ChatSession) (now : Nat),
        sortedDesc sessions → (∀ s ∈ sessions, s.lastModified ≤ now) →
        sortedDesc (handleModeSelect mode sessions now)) ∧
    (∀ (sid : String) (sessions : List ChatSession),
        sortedDesc sessions → sortedDesc (handleDeleteSession sid sessions)) := by
  refine ⟨?_, ?_, ?_, ?_⟩
  · intro stored
    cases stored with
    | none => simp [loadHistory, sortedDesc]
    | some parsed => exact jsSortDesc_sorted _
  · intro username am sessions cid now msgs hsort
    rw [updateCurrentSession]
    by_cases hu : username = ""
    · rw [if_pos hu]
      exact hsort
    · rw [if_neg hu]
      cases cid with
      | none => exact jsSortDesc_sorted _
      | some c =>
        by_cases hc : c = ""
        · simp only [if_pos hc]
          exact jsSortDesc_sorted _
        · simp only [if_neg hc]
          exact jsSortDesc_sorted _
  · intro mode sessions now hsort hle
    rw [handleModeSelect]
    exact List.Pairwise.cons (fun s hs => hle s hs) hsort
  · intro sid sessions hsort
    exact hsort.sublist (List.filter_sublist sessions)

/-- Witness for C6. -/
theorem C6_sorted_after_mutations_witness :
    sortedDesc (loadHistory (some [⟨"1", "t", ChatMode.operations, [], 5⟩])) ∧
    sortedDesc (updateCurrentSession "u" none
      [⟨"1", "t", ChatMode.operations, [], 5⟩] (some "1") 9 []).sessions ∧
    sortedDesc (handleModeSelect ChatMode.diagnosis
      [⟨"1", "t", ChatMode.operations, [], 5⟩] 9) ∧
    sortedDesc (handleDeleteSession "1" [⟨"1", "t", ChatMode.operations, [], 5⟩]) := by
  refine ⟨C6_sorted_after_mutations.1 _,
    C6_sorted_after_mutations.2.1 "u" none _ (some "1") 9 [] ?_,
    C6_sorted_after_mutations.2.2.1 ChatMode.diagnosis _ 9 ?_ ?_,
    C6_sorted_after_mutations.2.2.2 "1" _ ?_⟩
  · exact List.pairwise_singleton _ _
  · exact List.pairwise_singleton _ _
  · intro s hs
    rw [List.mem_singleton] at hs
    subst hs
    decide
  · exact List.pairwise_singleton _ _

/-- **C7.**  Persisting a session list with `saveHistoryToStorage` and
reloading it with `loadHistory` yields sessions with identical `id`,
`title`, `mode`, message `role`/`text`, and message timestamps rehydrated
from their ISO-string form to exactly the original instants (millisecond
resolution on both sides): the reloaded list is a permutation of the
original carrying identical sessions, and equals it position by position
whenever the original list is sorted by `lastModified` descending (which
every list the Store produces is, per C6).  Timestamps are assumed below
the four-digit-year serialisation bound. -/
theorem C7_storage_roundtrip (sessions : List ChatSession)
    (hts : ∀ s ∈ sessions, ∀ m ∈ s.messages, m.timestamp < TS_BOUND) :
    List.Perm (loadHistory (some (saveHistoryToStorage sessions))) sessions ∧
    (sortedDesc sessions → loadHistory (some (saveHistoryToStorage sessions)) = sessions) := by
  have hsess : ∀ s ∈ sessions, (hydrateSession ∘ encodeSession) s = s := by
    intro s hs
    have hmsg : ∀ m ∈ s.messages, (hydrateMessage ∘ encodeMessage) m = m := by
      intro m hm
      cases m with
      | mk role text timestamp =>
        simp only [Function.comp, encodeMessage, hydrateMessage]
        rw [parseISO_toISO timestamp (hts s hs _ hm)]
        rfl
    simp only [Function.comp, encodeSession, hydrateSession]
    rw [List.map_map, List.map_congr_left hmsg, List.map_id']
  have hdec : (saveHistoryToStorage sessions).map hydrateSession = sessions := by
    rw [saveHistoryToStorage, List.map_map]
    rw [List.map_congr_left hsess, List.map_id']
  constructor
  · rw [loadHistory, hdec]
    exact jsSortDesc_perm sessions
  · intro hsort
    rw [loadHistory, hdec]
    exact jsSortDesc_eq_self sessions hsort

/-- Witness for C7. -/
theorem C7_storage_roundtrip_witness :
    List.Perm (loadHistory (some (saveHistoryToStorage
        [⟨"1", "t", ChatMode.operations, [⟨MessageRole.user, "hi", 0⟩], 7⟩])))
      [⟨"1", "t", ChatMode.operations, [⟨MessageRole.user, "hi", 0⟩], 7⟩] ∧
    loadHistory (some (saveHistoryToStorage
        [⟨"1", "t", ChatMode.operations, [⟨MessageRole.user, "hi", 0⟩], 7⟩])) =
      [⟨"1", "t", ChatMode.operations, [⟨MessageRole.user, "hi", 0⟩], 7⟩] := by
  have h := C7_storage_roundtrip
    [⟨"1", "t", ChatMode.operations, [⟨MessageRole.user, "hi", 0⟩], 7⟩]
    (by
      intro s hs m hm
      rw [List.mem_singleton] at hs
      subst hs
      rw [List.mem_singleton] at hm
      subst hm
      decide)
  exact ⟨h.1, h.2 (List.pairwise_singleton _ _)⟩

/-! ### Sensor File Parser (`handleFileUpload`, RightPanel.tsx:21-107) -/

/-- A parsed sensor sample; `none` in a numeric field models `NaN`
(possible on the JSON path, where `Number(...)` is not NaN-guarded). -/
structure SensorDataPoint where
  time : String
  vibration : Option DecNum
  temperature : Option DecNum
deriving DecidableEq, Repr

/-- ASCII lowercasing (`toLowerCase`; the claims' file names are ASCII). -/
def jsToLower (s : String) : String := String.mk (s.toList.map Char.toLower)

/-- `String.prototype.endsWith`. -/
def jsEndsWith (s suffix : String) : Bool := suffix.toList.isSuffixOf s.toList

/-- Split on every `,` or tab (`.split(/[,\t]/)`). -/
def splitSepAux : List Char → List Char → List String
  | [], acc => [String.mk acc.reverse]
  | c :: rest, acc =>
    if c = ',' ∨ c = '\t' then String.mk acc.reverse :: splitSepAux rest []
    else splitSepAux rest (c :: acc)

/-- `.split(/[,\t]/)` on a string. -/
def splitSep (s : String) : List String := splitSepAux s.toList []

/-- Finish one line of the newline split, stripping the `\r` of a
`\r\n` terminator (the accumulator is reversed). -/
def finishLine : List Char → String
  | '\r' :: t => String.mk t.reverse
  | t => String.mk t.reverse

/-- `.split(/\r?\n/)`: split at every `\n`, absorbing a preceding `\r`;
a stray `\r` not followed by `\n` stays in its line. -/
def splitNlAux : List Char → List Char → List String
  | [], acc => [String.mk acc.reverse]
  | c :: rest, acc =>
    if c = '\n' then finishLine acc :: splitNlAux rest []
    else splitNlAux rest (c :: acc)

/-- `.split(/\r?\n/)` on a string. -/
def splitLinesJs (s : String) : List String := splitNlAux s.toList []

/-- `Array.prototype.map` with the element index. -/
def mapIdxFrom (f : Nat → α → β) : Nat → List α → List β
  | _, [] => []
  | i, x :: xs => f i x :: mapIdxFrom f (i + 1) xs

/-- One delimited-text data row (RightPanel.tsx:62-82): quotes stripped,
split on comma/tab; one field is a vibration value, two add the time
label, three add the temperature; non-numeric fields fall back to the
defaults 0 / 60. -/
def parseCsvRow (i : Nat) (line : String) : SensorDataPoint :=
  let cleaned := line.toList.filter (fun c => ¬(c = '\'' ∨ c = '"'))
  let parts := splitSepAux cleaned []
  match parts with
  | [p0] =>
    ⟨Nat.repr (i * 10) ++ "ms", some ((jsParseFloat p0).getD (mkDec 0 0)),
      some (mkDec 60 0)⟩
  | p0 :: p1 :: rest =>
    let temp :=
      match rest with
      | [] => mkDec 60 0
      | p2 :: _ => (jsParseFloat p2).getD (mkDec 60 0)
    ⟨jsTrim p0, some ((jsParseFloat p1).getD (mkDec 0 0)), some temp⟩
  | [] => ⟨Nat.repr (i * 10) ++ "ms", some (mkDec 0 0), some (mkDec 60 0)⟩

/-- First truthy value of a JS `||` chain over possibly-absent properties,
with a final default. -/
def jsOrChain : List (Option JValue) → JValue → JValue
  | [], d => d
  | o :: rest, d =>
    match o with
    | some v => if jsTruthy v then v else jsOrChain rest d
    | none => jsOrChain rest d

/-- One JSON array element (RightPanel.tsx:42-46): `time` from a truthy
`time` property (else the synthetic `{index*10}ms` label), `vibration`
from `Number(item.vibration || item.value || item.v || 0)`, `temperature`
from `Number(item.temperature || item.temp || 60)`. -/
def mapJsonItem (i : Nat) (item : JValue) : SensorDataPoint :=
  { time :=
      match jGet item "time" with
      | some v => if jsTruthy v then jsStringOf v else Nat.repr (i * 10) ++ "ms"
      | none => Nat.repr (i * 10) ++ "ms"
    vibration := jsToNumber (jsOrChain
      [jGet item "vibration", jGet item "value", jGet item "v"] (.num (mkDec 0 0)))
    temperature := jsToNumber (jsOrChain
      [jGet item "temperature", jGet item "temp"] (.num (mkDec 60 0))) }

/-- The parsing core of `handleFileUpload` (RightPanel.tsx:27-98):
dispatch on the (lowercased) `.json` extension; JSON root must be an
array; otherwise non-blank lines with header detection on the first
line's first two fields; empty results are an error.  (`Except.error`
carries the thrown/reported reason; messages thrown by the JS engine
itself are abbreviated.) -/
def parseSensorFile (fileName content : String) : Except String (List SensorDataPoint) :=
  if content = "" then .error "文件内容为空"
  else if jsEndsWith (jsToLower fileName) ".json" then
    match jsonParse content with
    | none => .error "SyntaxError"
    | some (.arr items) =>
      let pts := mapIdxFrom mapJsonItem 0 items
      if pts.isEmpty then .error "未能解析出有效数据" else .ok pts
    | some _ => .error "JSON 格式错误：根节点必须是数组"
  else
    let lines := (splitLinesJs content).filter (fun l => jsTrim l ≠ "")
    match lines with
    | [] => .error "TypeError"
    | l0 :: _ =>
      let firstParts := splitSep l0
      let p0 := firstParts.getD 0 ""
      let p1 := firstParts.getD 1 ""
      let p1' := if p1 = "" then "0" else p1
      let startIndex := if (jsNumberOfString p0).isNone ∧ (jsNumberOfString p1').isNone
        then 1 else 0
      let pts := mapIdxFrom parseCsvRow 0 (lines.drop startIndex)
      if pts.isEmpty then .error "未能解析出有效数据" else .ok pts

/-! ### Claims C8–C9: the Sensor File Parser -/

/-- **C8.**  Parsing `vib.csv` with content
`"time,value\n0,2.1\n10,7.8\n20,16.4"` skips exactly the non-numeric
header line and produces exactly the three points
`{time:"0", vibration:2.1, temperature:60}`,
`{time:"10", vibration:7.8, temperature:60}`,
`{time:"20", vibration:16.4, temperature:60}`. -/
theorem C8_csv_scenario :
    parseSensorFile "vib.csv" "time,value\n0,2.1\n10,7.8\n20,16.4" =
      .ok [⟨"0", some (mkDec 21 1), some (mkDec 60 0)⟩,
           ⟨"10", some (mkDec 78 1), some (mkDec 60 0)⟩,
           ⟨"20", some (mkDec 164 1), some (mkDec 60 0)⟩] := rfl

/-- Counterexample to **C9** as stated: in
`[{"vibration": 0, "value": 5}]` the key `vibration` is the first
*present* of the three keys and holds 0, but the produced point's
vibration is 5 — the `||` chain skips falsy (zero) values, so the read is
first-*truthy*, not first-present. -/
theorem C9_counterexample :
    parseSensorFile "a.json" "[\x7b\"vibration\":0,\"value\":5\x7d]" =
      .ok [⟨"0ms", some (mkDec 5 0), some (mkDec 60 0)⟩] ∧
    some (mkDec 5 0) ≠ some (mkDec 0 0) := by
  constructor
  · rfl
  · decide

/-- **C9 (amended).**  On the sensor parser's JSON path, for every object
element of the root array: `vibration` is read (`Number`-converted) from
the first of the keys `vibration`, `value`, `v` whose value is truthy
(present and non-zero/non-empty), defaulting to 0 when none is truthy;
`temperature` likewise from `temperature` then `temp`, defaulting to 60;
and `time` defaults to the synthetic label `"{index*10}ms"` when the
`time` key is absent. -/
theorem C9_json_field_reads (fields : List (String × JValue)) (i : Nat) :
    (jGet (JValue.obj fields) "time" = none →
      (mapJsonItem i (JValue.obj fields)).time = Nat.repr (i * 10) ++ "ms") ∧
    (∀ v, truthyGet (JValue.obj fields) "vibration" = some v →
      (mapJsonItem i (JValue.obj fields)).vibration = jsToNumber v) ∧
    (truthyGet (JValue.obj fields) "vibration" = none →
      ∀ v, truthyGet (JValue.obj fields) "value" = some v →
      (mapJsonItem i (JValue.obj fields)).vibration = jsToNumber v) ∧
    (truthyGet (JValue.obj fields) "vibration" = none →
      truthyGet (JValue.obj fields) "value" = none →
      ∀ v, truthyGet (JValue.obj fields) "v" = some v →
      (mapJsonItem i (JValue.obj fields)).vibration = jsToNumber v) ∧
    (truthyGet (JValue.obj fields) "vibration" = none →
      truthyGet (JValue.obj fields) "value" = none →
      truthyGet (JValue.obj fields) "v" = none →
      (mapJsonItem i (JValue.obj fields)).vibration = some (mkDec 0 0)) ∧
    (∀ v, truthyGet (JValue.obj fields) "temperature" = some v →
      (mapJsonItem i (JValue.obj fields)).temperature = jsToNumber v) ∧
    (truthyGet (JValue.obj fields) "temperature" = none →
      ∀ v, truthyGet (JValue.obj fields) "temp" = some v →
      (mapJsonItem i (JValue.obj fields)).temperature = jsToNumber v) ∧
    (truthyGet (JValue.obj fields) "temperature" = none →
      truthyGet (JValue.obj fields) "temp" = none →
      (mapJsonItem i (JValue.obj fields)).temperature = some (mkDec 60 0)) := by
  have chainCons : ∀ (o : Option JValue) (os : List (Option JValue)) (d : JValue),
      jsOrChain (o :: os) d = (tfilter o).getD (jsOrChain os d) := by
    intro o os d
    cases o with
    | none => rfl
    | some w =>
      by_cases ht : jsTruthy w = true
      · simp [jsOrChain, tfilter, ht]
      · simp [jsOrChain, tfilter, ht]
  have chainStep : ∀ (k : String) (os : List (Option JValue)) (d : JValue),
      (∀ v, truthyGet (JValue.obj fields) k = some v →
        jsOrChain (jGet (JValue.obj fields) k :: os) d = v) ∧
      (truthyGet (JValue.obj fields) k = none →
        jsOrChain (jGet (JValue.obj fields) k :: os) d = jsOrChain os d) := by
    intro k os d
    constructor
    · intro v hv
      rw [chainCons, show tfilter (jGet (JValue.obj fields) k) =
        truthyGet (JValue.obj fields) k from rfl, hv]
      rfl
    · intro hn
      rw [chainCons, show tfilter (jGet (JValue.obj fields) k) =
        truthyGet (JValue.obj fields) k from rfl, hn]
      rfl
  refine ⟨?_, ?_, ?_, ?_, ?_, ?_, ?_, ?_⟩
  · intro h
    rw [mapJsonItem]
    simp only [h]
  · intro v hv
    rw [mapJsonItem]
    simp only [(chainStep "vibration" _ _).1 v hv]
  · intro h1 v hv
    rw [mapJsonItem]
    simp only [(chainStep "vibration" _ _).2 h1, (chainStep "value" _ _).1 v hv]
  · intro h1 h2 v hv
    rw [mapJsonItem]
    simp only [(chainStep "vibration" _ _).2 h1, (chainStep "value" _ _).2 h2,
      (chainStep "v" _ _).1 v hv]
  · intro h1 h2 h3
    rw [mapJsonItem]
    simp only [(chainStep "vibration" _ _).2 h1, (chainStep "value" _ _).2 h2,
      (chainStep "v" _ _).2 h3]
    rfl
  · intro v hv
    rw [mapJsonItem]
    simp only [(chainStep "temperature" _ _).1 v hv]
  · intro h1 v hv
    rw [mapJsonItem]
    simp only [(chainStep "temperature" _ _).2 h1, (chainStep "temp" _ _).1 v hv]
  · intro h1 h2
    rw [mapJsonItem]
    simp only [(chainStep "temperature" _ _).2 h1, (chainStep "temp" _ _).2 h2]
    rfl

/-- Witness for the amended C9: an element `{"value": 5}` at index 3 gets
the synthetic time `"30ms"`, vibration from `value`, and the default
temperature. -/
theorem C9_json_field_reads_witness :
    (mapJsonItem 3 (JValue.obj [("value", JValue.num (mkDec 5 0))])).time = "30ms" ∧
    (mapJsonItem 3 (JValue.obj [("value", JValue.num (mkDec 5 0))])).vibration =
      jsToNumber (JValue.num (mkDec 5 0)) ∧
    (mapJsonItem 3 (JValue.obj [("value", JValue.num (mkDec 5 0))])).temperature =
      some (mkDec 60 0) := by
  have h := C9_json_field_reads [("value", JValue.num (mkDec 5 0))] 3
  exact ⟨h.1 rfl, h.2.2.1 rfl (JValue.num (mkDec 5 0)) rfl, h.2.2.2.2.2.2.2 rfl rfl⟩

/-! ### Outbound call wrapper (`sendMessageToGemini`, src/unnamed/part_004)
and the orchestrator's send path (`handleSend`, App.tsx:202-240) -/

/-- One OpenAI-format history entry. -/
structure OAIMessage where
  role : String
  content : String
deriving DecidableEq, Repr

/-- `String.prototype.includes`. -/
def jsIncludes (s sub : String) : Bool := (findSubstr sub.toList s.toList).isSome

/-- The system instruction of the OpenAI-proxy service variant. -/
def SYSTEM_INSTRUCTION_OPENAI : String := String.intercalate "\n"
  ["你是一个专业的农业机械智能运维助手，名字叫“农机智脑 (AgriSmart)”。",
   "请使用中文（简体）回答所有问题。",
   "",
   "**重要规则：**",
   "1. **直接回答**：所有的信息（包括农机推荐、作业排期、诊断建议）都必须直接在对话中展示，不要试图调用外部UI。",
   "2. **格式要求**：",
   "   - **农机推荐**：请使用 Markdown 表格列出参数（品牌、型号、马力、幅宽、适用场景）。",
   "   - **作业排期**：请使用 Markdown 表格列出计划（任务名、农机、开始时间、工期、状态）。",
   "     **必须同时**生成一个 Mermaid 格式的甘特图 (gantt) 代码块，以便直观展示进度。",
   "     ",
   "     *Mermaid 示例:*",
   "     ```mermaid",
   "     gantt",
   "       title 2023年秋季作业计划",
   "       dateFormat YYYY-MM-DD",
   "       axisFormat %m-%d",
   "       section 玉米",
   "       玉米抢收 :active, t1, 2023-10-01, 3d",
   "       section 小麦",
   "       深翻整地 :t2, after t1, 2d",
   "       小麦播种 :t3, after t2, 4d",
   "     ```",
   "     ",
   "   - **故障诊断**：请根据用户提供的以下信息：",
   "     1. 当前工况（如作物类型、环境参数）；",
   "     2. 异常参数（如振动值、负载等超标数据）；",
   "     3. 故障特征（如振动频率、变化趋势）；",
   "",
   "     **必须按以下结构回复**：",
   "     - **故障类型**：明确判断可能的故障（如切割刀磨损、输送链卡滞等）；",
   "     - **原因分析**：简要说明故障产生的可能原因；",
   "     - **维修建议**：分点列出具体可操作的维修步骤（专业、实用）。",
   "",
   "     回复语言简洁明了，符合农业机械维修场景。",
   "",
   "请保持语气专业、乐于助人。不要输出任何用于程序解析的 JSON 代码块。"]

/-- `getFallbackResponse` (part_004:114-148): offline/demo reply keyed on
keywords of the lowercased query. -/
def getFallbackResponse (query : String) : String :=
  let lower := jsToLower query
  if jsIncludes lower "排期" || jsIncludes lower "计划" then
    String.intercalate "\n"
      ["**(离线模式)** 网络连接失败。这里是一个示例排期表：",
       "",
       "| 任务名称 | 农机型号 | 开始日期 | 工期 | 状态 |",
       "| :--- | :--- | :--- | :--- | :--- |",
       "| 玉米抢收 | 约翰迪尔 8R | 2023-10-01 | 3天 | 进行中 |",
       "| 小麦播种 | 雷肯播种机 | 2023-10-05 | 4天 | 待定 |",
       "",
       "```mermaid",
       "gantt",
       "  title 离线示例排期",
       "  dateFormat YYYY-MM-DD",
       "  axisFormat %m-%d",
       "  section 抢收",
       "  玉米抢收 :active, t1, 2023-10-01, 3d",
       "  section 播种",
       "  小麦播种 :t2, after t1, 4d",
       "```",
       "    "]
  else if jsIncludes lower "推荐" || jsIncludes lower "拖拉机" then
    String.intercalate "\n"
      ["**(离线模式)** 网络连接失败。为您推荐以下机型：",
       "",
       "| 品牌 | 型号 | 马力 | 幅宽 | 适用场景 |",
       "| :--- | :--- | :--- | :--- | :--- |",
       "| 芬特 (Fendt) | 1050 Vario | 517 HP | N/A | 适合大面积重负荷深翻作业 |",
       "| 凯斯 (Case IH) | Magnum 400 | 396 HP | N/A | 适合牵引重型播种机 |",
       "    "]
  else "抱歉，无法连接到服务器。请检查网络或 API Key 设置。"

/-- Outcome of the single `fetch` to the completion endpoint: rejection
(network failure), or a response with its `ok` flag, status, and the
result of `response.json()` (`none` when the body is not JSON). -/
inductive FetchOutcome where
  | fail : FetchOutcome
  | resp (ok : Bool) (status : Nat) (body : Option JValue) : FetchOutcome

/-- `data.choices?.[0]?.message?.content || ""` — the resolved value of a
successful call (kept as a raw JSON value: the code does not validate
that `content` is a string). -/
def chatCompletionContent (data : JValue) : JValue :=
  (tfilter ((((jGet data "choices").bind (fun ch => jIndex ch 0)).bind
    (fun m0 => jGet m0 "message")).bind (fun m1 => jGet m1 "content"))).getD (.str "")

/-- `sendMessageToGemini` (part_004:72-109).  Re-initialises an empty
history with the system prompt, pushes the user message, and resolves:
with a configuration message when the API key is missing; through the
`catch` with `getFallbackResponse` on fetch rejection, a non-`ok` status
(the `throw` inside `try`) or an unreadable body; with the extracted
completion content on success (also pushed onto the history).  The
`Except.error` constructor models promise rejection — never produced. -/
def sendMessageToGemini (apiKey : String) (history : List OAIMessage)
    (message : String) (outcome : FetchOutcome) :
    Except String JValue × List OAIMessage :=
  let h0 := if history.isEmpty then [⟨"system", SYSTEM_INSTRUCTION_OPENAI⟩] else history
  let h1 := h0 ++ [⟨"user", message⟩]
  if apiKey = "" then
    (.ok (.str "配置错误：未找到 API_KEY。请在 .env 文件中配置您的密钥。"), h1)
  else
    match outcome with
    | .fail => (.ok (.str (getFallbackResponse message)), h1)
    | .resp ok _ body =>
      if ok then
        match body with
        | none => (.ok (.str (getFallbackResponse message)), h1)
        | some data =>
          let botContent := chatCompletionContent data
          (.ok botContent, h1 ++ [⟨"assistant", jsStringOf botContent⟩])
      else (.ok (.str (getFallbackResponse message)), h1)

/-- The transcript evolution of `handleSend` (App.tsx:202-240): guarded
on non-blank input and no in-flight call; appends the user message, then
appends a model message with the resolved text on the `try` path, or the
fixed error text on the `catch` path. -/
def handleSend (input : String) (isLoading : Bool) (messages : List ChatMessage)
    (apiKey : String) (history : List OAIMessage) (outcome : FetchOutcome)
    (now : Nat) : List ChatMessage :=
  if jsTrim input = "" ∨ isLoading then messages
  else
    let newMessages := messages ++ [⟨MessageRole.user, input, now⟩]
    match (sendMessageToGemini apiKey history input outcome).1 with
    | .ok v => newMessages ++ [⟨MessageRole.model, jsStringOf v, now⟩]
    | .error _ => newMessages ++ [⟨MessageRole.model, "遇到连接错误，请重试。", now⟩]

theorem handleSend_of_ok (input : String) (isLoading : Bool)
    (messages : List ChatMessage) (apiKey : String) (history : List OAIMessage)
    (outcome : FetchOutcome) (now : Nat) (v : JValue)
    (hok : (sendMessageToGemini apiKey history input outcome).1 = Except.ok v)
    (hi : jsTrim input ≠ "") (hl : isLoading = false) :
    handleSend input isLoading messages apiKey history outcome now =
      messages ++ [⟨MessageRole.user, input, now⟩, ⟨MessageRole.model, jsStringOf v, now⟩] := by
  have hguard : ¬(jsTrim input = "" ∨ isLoading = true) := by
    intro h
    rcases h with h | h
    · exact hi h
    · rw [hl] at h
      exact Bool.noConfusion h
  rw [handleSend, if_neg hguard, hok]
  simp

/-! ### Claim C10: the outbound call never rejects -/

/-- **C10.**  For every input message and every outcome of the outbound
HTTP call — missing API key, network failure, non-OK status (including an
unreadable body), or success — `sendMessageToGemini` resolves (never
rejects): its result is always `Except.ok`.  Consequently the
orchestrator's `catch` branch is unreachable: under its guard,
`handleSend` always extends the transcript through the ordinary success
path with the resolved value.  On every failure outcome the resolved
value is one of the fixed human-readable strings (the configuration
message or the keyword-matched offline fallback). -/
theorem C10_send_never_rejects (apiKey : String) (history : List OAIMessage)
    (input : String) (outcome : FetchOutcome) (isLoading : Bool)
    (messages : List ChatMessage) (now : Nat) :
    ∃ v, (sendMessageToGemini apiKey history input outcome).1 = Except.ok v ∧
      (jsTrim input ≠ "" → isLoading = false →
        handleSend input isLoading messages apiKey history outcome now =
          messages ++ [⟨MessageRole.user, input, now⟩,
            ⟨MessageRole.model, jsStringOf v, now⟩]) ∧
      ((apiKey = "" ∨ outcome = .fail ∨ (∃ st b, outcome = .resp false st b) ∨
          (∃ st, outcome = .resp true st none)) →
        v = .str "配置错误：未找到 API_KEY。请在 .env 文件中配置您的密钥。" ∨
        v = .str (getFallbackResponse input)) := by
  by_cases hk : apiKey = ""
  · refine ⟨.str "配置错误：未找到 API_KEY。请在 .env 文件中配置您的密钥。", ?_, ?_, ?_⟩
    · simp [sendMessageToGemini, hk]
    · intro hi hl
      exact handleSend_of_ok input isLoading messages apiKey history outcome now _
        (by simp [sendMessageToGemini, hk]) hi hl
    · intro _
      exact Or.inl rfl
  · cases outcome with
    | fail =>
      refine ⟨.str (getFallbackResponse input), ?_, ?_, ?_⟩
      · simp [sendMessageToGemini, hk]
      · intro hi hl
        exact handleSend_of_ok input isLoading messages apiKey history .fail now _
          (by simp [sendMessageToGemini, hk]) hi hl
      · intro _
        exact Or.inr rfl
    | resp ok status body =>
      cases ok with
      | false =>
        refine ⟨.str (getFallbackResponse input), ?_, ?_, ?_⟩
        · simp [sendMessageToGemini, hk]
        · intro hi hl
          exact handleSend_of_ok input isLoading messages apiKey history _ now _
            (by simp [sendMessageToGemini, hk]) hi hl
        · intro _
          exact Or.inr rfl
      | true =>
        cases body with
        | none =>
          refine ⟨.str (getFallbackResponse input), ?_, ?_, ?_⟩
          · simp [sendMessageToGemini, hk]
          · intro hi hl
            exact handleSend_of_ok input isLoading messages apiKey history _ now _
              (by simp [sendMessageToGemini, hk]) hi hl
          · intro _
            exact Or.inr rfl
        | some data =>
          refine ⟨chatCompletionContent data, ?_, ?_, ?_⟩
          · simp [sendMessageToGemini, hk]
          · intro hi hl
            exact handleSend_of_ok input isLoading messages apiKey history _ now _
              (by simp [sendMessageToGemini, hk]) hi hl
          · intro h
            rcases h with h | h | ⟨st, b, h⟩ | ⟨st, h⟩
            · exact absurd h hk
            · exact FetchOutcome.noConfusion h
            · exact absurd (FetchOutcome.resp.inj h).1 (by decide)
            · exact Option.noConfusion (FetchOutcome.resp.inj h).2.2

/-- Witness for C10: a missing API key still resolves, and the
orchestrator persists the configuration message through the ordinary
path. -/
theorem C10_send_never_rejects_witness :
    (sendMessageToGemini "" [] "hi" FetchOutcome.fail).1 =
      Except.ok (.str "配置错误：未找到 API_KEY。请在 .env 文件中配置您的密钥。") ∧
    handleSend "hi" false [] "" [] FetchOutcome.fail 1 =
      [⟨MessageRole.user, "hi", 1⟩,
       ⟨MessageRole.model,
        jsStringOf (.str "配置错误：未找到 API_KEY。请在 .env 文件中配置您的密钥。"), 1⟩] := by
  obtain ⟨v, h1, h2, h3⟩ := C10_send_never_rejects "" [] "hi" FetchOutcome.fail false [] 1
  have hsend : (sendMessageToGemini "" [] "hi" FetchOutcome.fail).1 =
      Except.ok (.str "配置错误：未找到 API_KEY。请在 .env 文件中配置您的密钥。") := rfl
  have hv : v = .str "配置错误：未找到 API_KEY。请在 .env 文件中配置您的密钥。" :=
    Except.ok.inj (h1.symm.trans hsend)
  subst hv
  refine ⟨hsend, ?_⟩
  have := h2 (by decide) rfl
  simpa using this

end AgriSmart
